import Mathlib

/-
Verification of the multi-device synchronization engine of the
App-timeline-tarefas repository (src/services/syncUtils.ts,
src/services/syncService.ts, and the sync effects in src/App.tsx).

Shallow embedding conventions:
* TypeScript arrays become Lean lists; a JavaScript `Map` becomes an
  association list (`JsMap`) whose `set` keeps the original insertion
  position of an existing key and appends new keys at the end, exactly
  like `Map.prototype.set`; `Array.from(map.values())` is the list of
  the second components in insertion order.
* `Date` values become `Option Int` (epoch milliseconds; `none` models an
  Invalid Date, whose `getTime()` is NaN).  `Date.prototype.toISOString`
  is abstracted by the injective encoder `isoOfMillis` (the sync logic
  never inspects the text of an ISO string).
* Optional numeric fields (`_updatedAt?: number`) become `Option Nat`;
  the JavaScript idiom `x._updatedAt || 0` is `(·.getD 0)` composed with
  a zero test (`0` is falsy, so `some 0` behaves like `none`).
* 32-bit JavaScript arithmetic in the FNV hash is carried out on `Nat`
  modulo 2^32; `x << k` on an int32 is `x * 2^k` reduced mod 2^32, and
  the float additions between the `^=` steps only matter mod 2^32.
* String sorting: `Array.prototype.sort()` with the default comparator
  sorts strings by their code-unit sequence; we model the result as the
  (unique, by antisymmetry) sorted permutation produced by insertion
  sort over the lexicographic order `strLe` on the character sequence.
-/

namespace TimelineSync

/-! ## JavaScript string order and sort -/

/-- Lexicographic order on character sequences (JS default string
comparison, code unit by code unit). -/
def charsLe : List Char → List Char → Bool
  | [], _ => true
  | _ :: _, [] => false
  | a :: as, b :: bs =>
    if a.toNat < b.toNat then true
    else if b.toNat < a.toNat then false
    else charsLe as bs

/-- JS `a <= b` on strings. -/
def strLe (a b : String) : Bool := charsLe a.data b.data

/-- The order `strLe`, as a relation. -/
def strLeRel : String → String → Prop := fun a b => strLe a b = true

instance : DecidableRel strLeRel := fun a b => by unfold strLeRel; infer_instance

/-- Model of `Array.prototype.sort()` on an array of strings. -/
def sortStrings (l : List String) : List String := List.insertionSort strLeRel l

/-! ## JavaScript `Map` as an insertion-ordered association list -/

/-- Insertion-ordered map, as produced by `new Map()` plus `set` calls. -/
abbrev JsMap (α : Type) := List (String × α)

/-- Model of `Map.prototype.set`: updating an existing key keeps its
insertion position, a fresh key is appended at the end. -/
def mapSet (m : JsMap α) (k : String) (v : α) : JsMap α :=
  match m with
  | [] => [(k, v)]
  | (k', v') :: rest => if k' = k then (k, v) :: rest else (k', v') :: mapSet rest k v

/-- Model of `Map.prototype.get` (`none` = `undefined`). -/
def mapGet (m : JsMap α) (k : String) : Option α :=
  match m with
  | [] => none
  | (k', v') :: rest => if k' = k then some v' else mapGet rest k

/-! ## Data model (src/types.ts)

In-memory items as held in React state.  `timestamp`/`createdAt` are
`Date` values (`Option Int` of epoch ms, `none` = Invalid Date);
`updatedAt` embeds the optional `_updatedAt` revision field; the union
types (`'image' | 'video'`, `UserRole`, …) are embedded as strings. -/

structure Task where
  id : String
  description : String
  timestamp : Option Int
  mediaUrl : Option String := none
  mediaType : Option String := none
  author : Option String := none
  updatedAt : Option Nat := none
deriving DecidableEq, Repr

structure Reminder where
  id : String
  type : String
  content : String
  audioUrl : Option String := none
  timestamp : Option Int
  status : String
  linkedTaskId : Option String := none
  author : Option String := none
  updatedAt : Option Nat := none
deriving DecidableEq, Repr

structure Goal where
  id : String
  description : String
  type : String
  createdAt : Option Int
  audioUrl : Option String := none
  author : Option String := none
  updatedAt : Option Nat := none
deriving DecidableEq, Repr

structure GoalCompletion where
  goalId : String
  date : String
  completed : Bool
  updatedAt : Option Nat := none
deriving DecidableEq, Repr

/-- The record passed to `hashData` (the four state collections). -/
structure AppData where
  tasks : List Task
  reminders : List Reminder
  goals : List Goal
  goalCompletions : List GoalCompletion
deriving DecidableEq, Repr

/-! ## Merge engine (src/services/syncUtils.ts: mergeLWW,
mergeLWWGoalCompletions)

`validateArrayField` filters `null`/`undefined` entries and replaces
non-arrays by a default; well-typed Lean lists contain neither, so at
this level it is the identity and is not reproduced separately.  The
merge is factored through `mergeCore`, parametrized by the key
extractor: `mergeLWW` uses `hasValidId` (a nonempty string `id`),
`mergeLWWGoalCompletions` uses the composite key `goalId ++ "::" ++
date` (its guard `isValidGoalCompletion` is a runtime type check that
always holds for well-typed values). -/

/-- The timestamp coercion `item._updatedAt || 0` (missing or zero
revision behaves as 0). -/
def tsVal (t : Option Nat) : Nat := t.getD 0

/-- First `forEach`: load the existing array into the map, skipping
items without a valid key (logged and dropped in the source). -/
def insertExistingStep (keyOf : α → Option String) (m : JsMap α) (item : α) : JsMap α :=
  match keyOf item with
  | some k => mapSet m k item
  | none => m

/-- Second `forEach`: for each new item, insert if absent, else replace
exactly when `newTimestamp >= existingTimestamp`. -/
def insertNewStep (keyOf : α → Option String) (tsOf : α → Option Nat)
    (m : JsMap α) (newItem : α) : JsMap α :=
  match keyOf newItem with
  | none => m
  | some k =>
    match mapGet m k with
    | none => mapSet m k newItem
    | some existing =>
      if tsVal (tsOf existing) ≤ tsVal (tsOf newItem) then mapSet m k newItem else m

/-- The merged map (before `Array.from(merged.values())`). -/
def mergeCore (keyOf : α → Option String) (tsOf : α → Option Nat)
    (existingArray newArray : List α) : JsMap α :=
  newArray.foldl (insertNewStep keyOf tsOf)
    (existingArray.foldl (insertExistingStep keyOf) [])

/-- `hasValidId` as a key extractor: `some id` when the id is a
nonempty string, `none` otherwise. -/
def validKey (idOf : α → String) (item : α) : Option String :=
  if (idOf item).length > 0 then some (idOf item) else none

/-- mergeLWW from syncUtils.ts, generic over the item type via its
`id`/`_updatedAt` accessors (the TS generic constraint
`T extends { id: string; _updatedAt?: number }`). -/
def mergeLWW (idOf : α → String) (tsOf : α → Option Nat)
    (existingArray newArray : List α) : List α :=
  (mergeCore (validKey idOf) tsOf existingArray newArray).map Prod.snd

/-- The composite key `goalId + "::" + date` of a GoalCompletion. -/
def completionKey (c : GoalCompletion) : String := c.goalId ++ "::" ++ c.date

/-- mergeLWWGoalCompletions from syncUtils.ts. -/
def mergeLWWGoalCompletions (existingArray newArray : List GoalCompletion) :
    List GoalCompletion :=
  (mergeCore (fun c => some (completionKey c)) (fun c => c.updatedAt)
    existingArray newArray).map Prod.snd

/-! ## Fingerprint engine (src/services/syncUtils.ts: hashData)

`normalize` drops `_updatedAt`, converts `Date` fields to epoch ms,
and serializes with `JSON.stringify` (undefined-valued optional
properties are omitted; property order follows the interface
declaration; string escaping is modeled for quote and backslash —
control-character escapes do not affect any property proved here).
`JSON.stringify` of the NaN
produced by an Invalid Date's `getTime()` is `null`. -/

def jsonEscape (s : String) : String :=
  ⟨s.data.foldr (fun c acc =>
    if c = '\"' then '\\' :: '\"' :: acc
    else if c = '\\' then '\\' :: '\\' :: acc
    else c :: acc) []⟩

def jstr (s : String) : String := "\"" ++ jsonEscape s ++ "\""

/-- JSON rendering of `date.getTime()` (NaN for an Invalid Date). -/
def jnumDate : Option Int → String
  | some ms => toString ms
  | none => "null"

def jbool (b : Bool) : String := if b then "true" else "false"

def jfield (name val : String) : String := jstr name ++ ":" ++ val

def jobj (fields : List (Option String)) : String :=
  "\x7b" ++ String.intercalate "," (fields.filterMap id) ++ "\x7d"

def normalizeTask (t : Task) : String :=
  jobj [some (jfield "id" (jstr t.id)),
        some (jfield "description" (jstr t.description)),
        some (jfield "timestamp" (jnumDate t.timestamp)),
        t.mediaUrl.map (fun u => jfield "mediaUrl" (jstr u)),
        t.mediaType.map (fun u => jfield "mediaType" (jstr u)),
        t.author.map (fun u => jfield "author" (jstr u))]

def normalizeReminder (r : Reminder) : String :=
  jobj [some (jfield "id" (jstr r.id)),
        some (jfield "type" (jstr r.type)),
        some (jfield "content" (jstr r.content)),
        r.audioUrl.map (fun u => jfield "audioUrl" (jstr u)),
        some (jfield "timestamp" (jnumDate r.timestamp)),
        some (jfield "status" (jstr r.status)),
        r.linkedTaskId.map (fun u => jfield "linkedTaskId" (jstr u)),
        r.author.map (fun u => jfield "author" (jstr u))]

def normalizeGoal (g : Goal) : String :=
  jobj [some (jfield "id" (jstr g.id)),
        some (jfield "description" (jstr g.description)),
        some (jfield "type" (jstr g.type)),
        some (jfield "createdAt" (jnumDate g.createdAt)),
        g.audioUrl.map (fun u => jfield "audioUrl" (jstr u)),
        g.author.map (fun u => jfield "author" (jstr u))]

def normalizeCompletion (c : GoalCompletion) : String :=
  jobj [some (jfield "goalId" (jstr c.goalId)),
        some (jfield "date" (jstr c.date)),
        some (jfield "completed" (jbool c.completed))]

/-- `map(normalize).sort().join('|')` for one collection. -/
def collectionStr (l : List String) : String :=
  String.intercalate "|" (sortStrings l)

/-- The full string that is hashed: the length prefix plus the four
sorted serialized collections. -/
def hashInput (d : AppData) : String :=
  let lengthStr := "[" ++ toString d.tasks.length ++ "," ++
    toString d.reminders.length ++ "," ++ toString d.goals.length ++ "," ++
    toString d.goalCompletions.length ++ "]"
  lengthStr ++ "::" ++ collectionStr (d.tasks.map normalizeTask) ++
    "::" ++ collectionStr (d.reminders.map normalizeReminder) ++
    "::" ++ collectionStr (d.goals.map normalizeGoal) ++
    "::" ++ collectionStr (d.goalCompletions.map normalizeCompletion)

/-- One iteration of the FNV-1a style loop, on the unsigned 32-bit
residue: `hash ^= charCode; hash += (hash<<1)+(hash<<4)+(hash<<7)+
(hash<<8)+(hash<<24)` (all JS int32 operations agree with these
mod-2^32 values at every `^=` and at the final `>>> 0`). -/
def fnvStep (h c : Nat) : Nat :=
  let x := (h % 4294967296) ^^^ (c % 4294967296)
  (x + x * 2 % 4294967296 + x * 16 % 4294967296 + x * 128 % 4294967296 +
    x * 256 % 4294967296 + x * 16777216 % 4294967296) % 4294967296

/-- The rolling hash over the string (charCodeAt = code unit; all
characters appearing here are in the basic plane, where Lean's
codepoints coincide with UTF-16 code units). -/
def fnvHash (s : String) : Nat :=
  s.data.foldl (fun h c => fnvStep h c.toNat) 2166136261

def base36Char (n : Nat) : Char := Char.ofNat (if n < 10 then 48 + n else 87 + n)

/-- Digits of `.toString(36)`, fuel-indexed (fuel `n+1` always
suffices). -/
def base36Aux : Nat → Nat → List Char → List Char
  | 0, _, acc => acc
  | fuel+1, n, acc =>
    let d := base36Char (n % 36)
    if n < 36 then d :: acc else base36Aux fuel (n / 36) (d :: acc)

/-- `(hash >>> 0).toString(36)`. -/
def toBase36 (n : Nat) : String := String.mk (base36Aux (n + 1) n [])

/-- hashData from syncUtils.ts. -/
def hashData (d : AppData) : String := toBase36 (fnvHash (hashInput d))

/-! ## Transaction coordinator (src/services/syncService.ts)

Wire-shaped items are what `sanitizeData` produces and what the
Firestore document stores: `Date` fields rendered as ISO strings
(abstracted by the injective `isoOfMillis`), `_updatedAt` stamped. -/

structure WireTask where
  id : String
  description : String
  timestamp : String
  mediaUrl : Option String := none
  mediaType : Option String := none
  author : Option String := none
  updatedAt : Option Nat := none
deriving DecidableEq, Repr

structure WireReminder where
  id : String
  type : String
  content : String
  audioUrl : Option String := none
  timestamp : String
  status : String
  linkedTaskId : Option String := none
  author : Option String := none
  updatedAt : Option Nat := none
deriving DecidableEq, Repr

structure WireGoal where
  id : String
  description : String
  type : String
  createdAt : String
  audioUrl : Option String := none
  author : Option String := none
  updatedAt : Option Nat := none
deriving DecidableEq, Repr

/-- Abstraction of `Date.prototype.toISOString` (injective in the
millisecond value; the sync logic never inspects the text). -/
def isoOfMillis (ms : Int) : String := "ISO:" ++ toString ms

/-- `dateToString(isValidDate(d) ? d : now)`: an Invalid Date is
replaced by the sanitize-time `now` before rendering. -/
def sanitizeDateField (d : Option Int) (nowMs : Int) : String :=
  isoOfMillis (d.getD nowMs)

/-- `item._updatedAt || timestamp` (missing or zero stamped with the
sanitize-time timestamp). -/
def sanitizeTs (u : Option Nat) (timestamp : Nat) : Nat :=
  if tsVal u = 0 then timestamp else tsVal u

def sanitizeTask (nowMs : Int) (timestamp : Nat) (t : Task) : WireTask :=
  { id := t.id, description := t.description,
    timestamp := sanitizeDateField t.timestamp nowMs,
    mediaUrl := t.mediaUrl, mediaType := t.mediaType, author := t.author,
    updatedAt := some (sanitizeTs t.updatedAt timestamp) }

def sanitizeReminder (nowMs : Int) (timestamp : Nat) (r : Reminder) : WireReminder :=
  { id := r.id, type := r.type, content := r.content, audioUrl := r.audioUrl,
    timestamp := sanitizeDateField r.timestamp nowMs,
    status := r.status, linkedTaskId := r.linkedTaskId, author := r.author,
    updatedAt := some (sanitizeTs r.updatedAt timestamp) }

def sanitizeGoal (nowMs : Int) (timestamp : Nat) (g : Goal) : WireGoal :=
  { id := g.id, description := g.description, type := g.type,
    createdAt := sanitizeDateField g.createdAt nowMs,
    audioUrl := g.audioUrl, author := g.author,
    updatedAt := some (sanitizeTs g.updatedAt timestamp) }

def sanitizeCompletion (timestamp : Nat) (c : GoalCompletion) : GoalCompletion :=
  { c with updatedAt := some (sanitizeTs c.updatedAt timestamp) }

/-- UserData as held in memory (the App save payload, and the
converted snapshot delivered to the realtime listener). -/
structure UserDataMem where
  tasks : List Task
  reminders : List Reminder
  goals : List Goal
  goalCompletions : List GoalCompletion
  lastUpdated : Nat
  lastDeviceId : Option String := none
deriving DecidableEq, Repr

/-- The shared workspace document as stored remotely. -/
structure WireDoc where
  tasks : List WireTask
  reminders : List WireReminder
  goals : List WireGoal
  goalCompletions : List GoalCompletion
  lastUpdated : Nat
  lastDeviceId : Option String := none
  version : Option Nat := none
deriving DecidableEq, Repr

/-- sanitizeData from syncService.ts; `nowMs` is its `new Date()` and
`timestamp` its `Date.now()`.  Note: no per-item shape check happens
here — only date repair and `_updatedAt` stamping. -/
def sanitizeData (data : UserDataMem) (nowMs : Int) (timestamp : Nat) : WireDoc :=
  { tasks := data.tasks.map (sanitizeTask nowMs timestamp),
    reminders := data.reminders.map (sanitizeReminder nowMs timestamp),
    goals := data.goals.map (sanitizeGoal nowMs timestamp),
    goalCompletions := data.goalCompletions.map (sanitizeCompletion timestamp),
    lastUpdated := data.lastUpdated,
    lastDeviceId := data.lastDeviceId,
    version := none }

/-- The body of `runTransaction` in saveToFirebase: create with
`version = 1` when the document does not exist, otherwise per-collection
LWW merge and `version = (existing.version || 0) + 1`.  The source
routes goalCompletions through the id-keyed `mergeArraysById`; a
completion has no `id` property (so `item.id` is `undefined` and
`hasValidId` fails), embedded by the constant-empty id accessor. -/
def saveTransactionBody (deviceId : String) (txNow : Nat) (sanitized : WireDoc) :
    Option WireDoc → WireDoc
  | none =>
    { sanitized with
      lastUpdated := txNow
      lastDeviceId := some deviceId
      version := some 1 }
  | some existingData =>
    { tasks := mergeLWW WireTask.id WireTask.updatedAt existingData.tasks sanitized.tasks,
      reminders := mergeLWW WireReminder.id WireReminder.updatedAt
        existingData.reminders sanitized.reminders,
      goals := mergeLWW WireGoal.id WireGoal.updatedAt existingData.goals sanitized.goals,
      goalCompletions := mergeLWW (fun _ => "") GoalCompletion.updatedAt
        existingData.goalCompletions sanitized.goalCompletions,
      lastUpdated := txNow, lastDeviceId := some deviceId,
      version := some (existingData.version.getD 0 + 1) }

/-- Error classification in saveToFirebase's catch block (messages
without the original accents and emoji; only their identity matters). -/
inductive FirebaseErrorKind
  | notInitialized
  | invalidTimeValue
  | permissionDenied
  | unavailable
  | unauthenticated
  | other (code : String)
deriving DecidableEq, Repr

def classifyError : FirebaseErrorKind → String
  | .notInitialized => "Firebase nao inicializado. Verifique as credenciais no console."
  | .invalidTimeValue => "Dados com datas invalidas detectados. Limpando localStorage..."
  | .permissionDenied => "PERMISSAO NEGADA! Configure as regras do Firestore no Firebase Console"
  | .unavailable => "Firebase indisponivel. Verifique sua conexao com a internet."
  | .unauthenticated => "Autenticacao necessaria. Configure a autenticacao no Firebase."
  | .other code => "Erro: " ++ code

/-- The `{ success, error? }` value saveToFirebase resolves with. -/
structure SaveResult where
  success : Bool
  error : Option String := none
deriving DecidableEq, Repr

/-- saveToFirebase: on a failure injected by the environment the remote
document is untouched and the classified message is returned; otherwise
the transaction body runs atomically. -/
def saveToFirebase (deviceId : String) (nowMs : Int) (sanitizeTimestamp txNow : Nat)
    (data : UserDataMem) (remote : Option WireDoc)
    (failure : Option FirebaseErrorKind) : Option WireDoc × SaveResult :=
  match failure with
  | some e => (remote, { success := false, error := some (classifyError e) })
  | none =>
    (some (saveTransactionBody deviceId txNow
        (sanitizeData data nowMs sanitizeTimestamp) remote),
     { success := true })

/-- One commit's environment-supplied inputs (device id, the clock
reads inside sanitizeData, and the clock read inside the transaction). -/
structure CommitInput where
  deviceId : String
  nowMs : Int
  sanitizeTimestamp : Nat
  txNow : Nat
  data : UserDataMem
deriving Repr

def runCommit (c : CommitInput) (d : Option WireDoc) : WireDoc :=
  saveTransactionBody c.deviceId c.txNow
    (sanitizeData c.data c.nowMs c.sanitizeTimestamp) d

/-- N serialized successful commits (the store serializes transactions). -/
def runCommits (cs : List CommitInput) (d : Option WireDoc) : Option WireDoc :=
  cs.foldl (fun acc c => some (runCommit c acc)) d

/-! ## Sync effects in App.tsx

The relevant client state: the four React state collections, the
localStorage cache mirror, and the refs used by the loop guards
(`lastSyncTime`, `isSyncingFromFirebase`, `lastLocalChangeTimestamp`,
`pendingSaveTimestamp`, `dataHashRef`, `changeCountRef`). -/

structure AppState where
  tasks : List Task
  reminders : List Reminder
  goals : List Goal
  goalCompletions : List GoalCompletion
  cacheTasks : List Task
  cacheReminders : List Reminder
  cacheGoals : List Goal
  cacheGoalCompletions : List GoalCompletion
  isSyncing : Bool := false
  firebaseError : Option String := none
  lastSyncTime : Nat := 0
  isSyncingFromFirebase : Bool := false
  lastLocalChangeTimestamp : Nat := 0
  pendingSaveTimestamp : Nat := 0
  dataHash : String := ""
  changeCount : Nat := 0
  deviceId : String
deriving DecidableEq, Repr

def collectionsOf (s : AppState) : AppData :=
  ⟨s.tasks, s.reminders, s.goals, s.goalCompletions⟩

/-- The JS truthiness test
`data.lastDeviceId && data.lastDeviceId === currentDeviceId` (an
absent or empty writer id is falsy). -/
def isOwnUpdate (snap : UserDataMem) (deviceId : String) : Bool :=
  match snap.lastDeviceId with
  | some d => decide (0 < d.length) && decide (d = deviceId)
  | none => false

/-- The realtime listener callback body in App.tsx: gate the inbound
snapshot, and on acceptance merge it per collection, update the
timestamps and the hash baseline, and clear the pending-save timestamp
when the snapshot is this device's own echo. -/
def applySnapshot (snap : UserDataMem) (s : AppState) : AppState :=
  let own := isOwnUpdate snap s.deviceId
  let firebaseTimestamp := snap.lastUpdated
  let hasLocalChanges :=
    decide (0 < s.pendingSaveTimestamp) && decide (firebaseTimestamp < s.pendingSaveTimestamp)
  let isOlderThanLocal := decide (firebaseTimestamp < s.lastLocalChangeTimestamp)
  if hasLocalChanges then s
  else if isOlderThanLocal && !own then s
  else
    let mergedTasks := mergeLWW Task.id Task.updatedAt s.tasks snap.tasks
    let mergedReminders := mergeLWW Reminder.id Reminder.updatedAt s.reminders snap.reminders
    let mergedGoals := mergeLWW Goal.id Goal.updatedAt s.goals snap.goals
    let mergedGoalCompletions := mergeLWWGoalCompletions s.goalCompletions snap.goalCompletions
    { s with
      tasks := mergedTasks
      reminders := mergedReminders
      goals := mergedGoals
      goalCompletions := mergedGoalCompletions
      isSyncingFromFirebase := true
      lastSyncTime := firebaseTimestamp
      lastLocalChangeTimestamp := firebaseTimestamp
      dataHash := hashData ⟨mergedTasks, mergedReminders, mergedGoals, mergedGoalCompletions⟩
      pendingSaveTimestamp := if own then 0 else s.pendingSaveTimestamp }

/-- One delivery of the realtime listener: syncWithFirebase invokes the
App callback and then unconditionally caches the converted snapshot in
localStorage. -/
def listenerEvent (snap : UserDataMem) (s : AppState) : AppState :=
  let s' := applySnapshot snap s
  { s' with
    cacheTasks := snap.tasks
    cacheReminders := snap.reminders
    cacheGoals := snap.goals
    cacheGoalCompletions := snap.goalCompletions }

/-- The save useEffect in App.tsx up to the debounce: skip while the
remote-apply suppression flag is up; skip when the fingerprint equals
the stored baseline; otherwise update the baseline, stamp the
local-change and pending-save timestamps, bump the change counter,
write the cache, and schedule the debounced Firebase write (the
returned Bool). -/
def saveEffect (now : Nat) (s : AppState) : AppState × Bool :=
  if s.isSyncingFromFirebase then (s, false)
  else
    let currentHash := hashData (collectionsOf s)
    if currentHash = s.dataHash then (s, false)
    else
      ({ s with
         dataHash := currentHash
         lastLocalChangeTimestamp := now
         pendingSaveTimestamp := now
         changeCount := s.changeCount + 1
         cacheTasks := s.tasks
         cacheReminders := s.reminders
         cacheGoals := s.goals
         cacheGoalCompletions := s.goalCompletions }, true)

/-- Completion of the debounced saveToFirebase call in App.tsx: on
success record the sync time and reset the change counter (pending is
left for the echo to clear); on failure surface the error, clear the
pending-save timestamp and reset the counter. -/
def saveCompletion (timestamp : Nat) (result : SaveResult) (s : AppState) : AppState :=
  if result.success then
    { s with
      lastSyncTime := timestamp
      firebaseError := none
      changeCount := 0
      isSyncing := false }
  else
    { s with
      firebaseError := some (result.error.getD
        "Erro ao sincronizar com Firebase. Dados salvos localmente.")
      pendingSaveTimestamp := 0
      changeCount := 0
      isSyncing := false }

/-! ## Characterization of the merge -/

/-- Last element of `l` whose key is `k` (accumulator form), the value
the existing-items pass leaves at key `k`. -/
def lastWith (keyOf : α → Option String) (k : String) (l : List α) (init : Option α) :
    Option α :=
  l.foldl (fun acc i => if keyOf i = some k then some i else acc) init

/-- The LWW accumulation the new-items pass performs at key `k`. -/
def lwwFold (keyOf : α → Option String) (tsOf : α → Option Nat) (k : String)
    (l : List α) (init : Option α) : Option α :=
  l.foldl (fun acc i =>
    if keyOf i = some k then
      match acc with
      | none => some i
      | some e => if tsVal (tsOf e) ≤ tsVal (tsOf i) then some i else acc
    else acc) init

/-- First element of `l` whose key is `k` (the unique one when keys are
duplicate-free). -/
def keyedLookup (keyOf : α → Option String) (l : List α) (k : String) : Option α :=
  l.find? (fun i => decide (keyOf i = some k))

/-- Spec scenario inputs: the existing and incoming goal completions. -/
def gcExisting : GoalCompletion :=
  { goalId := "g1", date := "2024-01-01", completed := true, updatedAt := some 5 }

def gcIncoming : GoalCompletion :=
  { goalId := "g1", date := "2024-01-01", completed := false, updatedAt := some 3 }

/-- The state the accept path of the listener callback produces. -/
def mergedState (snap : UserDataMem) (s : AppState) : AppState :=
  { s with
    tasks := mergeLWW Task.id Task.updatedAt s.tasks snap.tasks
    reminders := mergeLWW Reminder.id Reminder.updatedAt s.reminders snap.reminders
    goals := mergeLWW Goal.id Goal.updatedAt s.goals snap.goals
    goalCompletions := mergeLWWGoalCompletions s.goalCompletions snap.goalCompletions
    isSyncingFromFirebase := true
    lastSyncTime := snap.lastUpdated
    lastLocalChangeTimestamp := snap.lastUpdated
    dataHash := hashData ⟨mergeLWW Task.id Task.updatedAt s.tasks snap.tasks,
      mergeLWW Reminder.id Reminder.updatedAt s.reminders snap.reminders,
      mergeLWW Goal.id Goal.updatedAt s.goals snap.goals,
      mergeLWWGoalCompletions s.goalCompletions snap.goalCompletions⟩
    pendingSaveTimestamp := if isOwnUpdate snap s.deviceId then 0 else s.pendingSaveTimestamp }

/-! ## Inputs for the concrete counterexamples and witnesses -/

def emptyAppState : AppState :=
  { tasks := []
    reminders := []
    goals := []
    goalCompletions := []
    cacheTasks := []
    cacheReminders := []
    cacheGoals := []
    cacheGoalCompletions := []
    deviceId := "device_a" }

def emptyUserData : UserDataMem :=
  { tasks := []
    reminders := []
    goals := []
    goalCompletions := []
    lastUpdated := 0 }

/-- An own-writer snapshot older than the pending local write. -/
def ownEchoSnapStale : UserDataMem :=
  { emptyUserData with
    lastUpdated := 50
    lastDeviceId := some "device_a" }

/-- A state with a pending local write stamped 100. -/
def pendingState100 : AppState :=
  { emptyAppState with pendingSaveTimestamp := 100 }

/-- A state with a pending local write stamped 40 (older than the
echo's lastUpdated of 50, so the gate passes). -/
def pendingState40 : AppState :=
  { emptyAppState with pendingSaveTimestamp := 40 }

def commit0 : CommitInput :=
  { deviceId := "device_a"
    nowMs := 0
    sanitizeTimestamp := 1
    txNow := 2
    data := emptyUserData }

/-- A task whose `id` is not a valid key (`hasValidId` fails on the
empty string). -/
def badTask : Task :=
  { id := "", description := "x", timestamp := some 0, updatedAt := some 1 }

def badCommit : CommitInput :=
  { deviceId := "device_a"
    nowMs := 0
    sanitizeTimestamp := 1
    txNow := 2
    data := { emptyUserData with tasks := [badTask] } }

/-! ## Fingerprint invariance (C8) -/

def clearTaskTs (t : Task) : Task := { t with updatedAt := none }

def clearReminderTs (r : Reminder) : Reminder := { r with updatedAt := none }

def clearGoalTs (g : Goal) : Goal := { g with updatedAt := none }

def clearCompletionTs (c : GoalCompletion) : GoalCompletion := { c with updatedAt := none }

/-- Concrete inputs for the C8 witness: the same two tasks in swapped
order with different `_updatedAt` stamps. -/
def c8TaskA1 : Task := { id := "a", description := "p", timestamp := some 0, updatedAt := some 1 }

def c8TaskB1 : Task := { id := "b", description := "q", timestamp := some 7, updatedAt := none }

def c8TaskA2 : Task := { id := "a", description := "p", timestamp := some 0, updatedAt := some 9 }

def c8TaskB2 : Task := { id := "b", description := "q", timestamp := some 7, updatedAt := some 3 }

def c8Data1 : AppData :=
  { tasks := [c8TaskA1, c8TaskB1]
    reminders := []
    goals := []
    goalCompletions := [gcExisting] }

def c8Data2 : AppData :=
  { tasks := [c8TaskB2, c8TaskA2]
    reminders := []
    goals := []
    goalCompletions := [{ gcExisting with updatedAt := none }] }

/-! ## Theorems -/

theorem charsLe_total : ∀ as bs, charsLe as bs = true ∨ charsLe bs as = true := by
  intro as
  induction as with
  | nil => intro bs; left; rfl
  | cons a as ih =>
    intro bs
    cases bs with
    | nil => right; rfl
    | cons b bs =>
      rcases Nat.lt_trichotomy a.toNat b.toNat with h | h | h
      · left; simp [charsLe, h]
      · rcases ih bs with h' | h'
        · left; simp [charsLe, h, h']
        · right; simp [charsLe, h.symm, h']
      · right; simp [charsLe, h]

theorem charsLe_trans : ∀ as bs cs, charsLe as bs = true → charsLe bs cs = true →
    charsLe as cs = true := by
  intro as
  induction as with
  | nil => intro bs cs _ _; rfl
  | cons a as ih =>
    intro bs cs hab hbc
    cases bs with
    | nil => simp [charsLe] at hab
    | cons b bs =>
      cases cs with
      | nil => simp [charsLe] at hbc
      | cons c cs =>
        simp only [charsLe] at hab hbc ⊢
        rcases Nat.lt_trichotomy a.toNat b.toNat with h1 | h1 | h1
        · rcases Nat.lt_trichotomy b.toNat c.toNat with h2 | h2 | h2
          · simp [show a.toNat < c.toNat by omega]
          · simp [show a.toNat < c.toNat by omega]
          · simp [show ¬ b.toNat < c.toNat by omega, h2] at hbc
        · rcases Nat.lt_trichotomy b.toNat c.toNat with h2 | h2 | h2
          · simp [show a.toNat < c.toNat by omega]
          · simp [show ¬ a.toNat < b.toNat by omega,
              show ¬ b.toNat < a.toNat by omega] at hab
            simp [show ¬ b.toNat < c.toNat by omega,
              show ¬ c.toNat < b.toNat by omega] at hbc
            simp [show ¬ a.toNat < c.toNat by omega,
              show ¬ c.toNat < a.toNat by omega]
            exact ih bs cs hab hbc
          · simp [show ¬ b.toNat < c.toNat by omega, h2] at hbc
        · simp [show ¬ a.toNat < b.toNat by omega, h1] at hab

theorem char_eq_of_toNat_eq {a b : Char} (h : a.toNat = b.toNat) : a = b := by
  have := congrArg Char.ofNat h
  simpa [Char.ofNat_toNat] using this

theorem charsLe_antisymm : ∀ as bs, charsLe as bs = true → charsLe bs as = true →
    as = bs := by
  intro as
  induction as with
  | nil =>
    intro bs _ hba
    cases bs with
    | nil => rfl
    | cons b bs => simp [charsLe] at hba
  | cons a as ih =>
    intro bs hab hba
    cases bs with
    | nil => simp [charsLe] at hab
    | cons b bs =>
      simp only [charsLe] at hab hba
      rcases Nat.lt_trichotomy a.toNat b.toNat with h1 | h1 | h1
      · simp [show ¬ b.toNat < a.toNat by omega, h1] at hba
      · simp [show ¬ a.toNat < b.toNat by omega,
          show ¬ b.toNat < a.toNat by omega] at hab hba
        rw [char_eq_of_toNat_eq h1, ih bs hab hba]
      · simp [show ¬ a.toNat < b.toNat by omega, h1] at hab

theorem strLeRel_total : ∀ a b : String, strLeRel a b ∨ strLeRel b a := by
  intro a b; exact charsLe_total a.data b.data

theorem strLeRel_trans : ∀ a b c : String, strLeRel a b → strLeRel b c → strLeRel a c := by
  intro a b c hab hbc; exact charsLe_trans a.data b.data c.data hab hbc

theorem strLeRel_antisymm : ∀ a b : String, strLeRel a b → strLeRel b a → a = b := by
  intro a b hab hba; exact String.ext (charsLe_antisymm a.data b.data hab hba)

theorem sortStrings_perm (l : List String) : (sortStrings l).Perm l :=
  List.perm_insertionSort strLeRel l

theorem sortStrings_eq_of_perm {l₁ l₂ : List String} (h : l₁.Perm l₂) :
    sortStrings l₁ = sortStrings l₂ := by
  haveI : IsTotal String strLeRel := ⟨strLeRel_total⟩
  haveI : IsTrans String strLeRel := ⟨strLeRel_trans⟩
  haveI : IsAntisymm String strLeRel := ⟨strLeRel_antisymm⟩
  exact List.eq_of_perm_of_sorted
    (((sortStrings_perm l₁).trans h).trans (sortStrings_perm l₂).symm)
    (List.sorted_insertionSort strLeRel l₁)
    (List.sorted_insertionSort strLeRel l₂)

theorem mapGet_mapSet (m : JsMap α) (k k' : String) (v : α) :
    mapGet (mapSet m k v) k' = if k' = k then some v else mapGet m k' := by
  induction m with
  | nil =>
    simp only [mapSet, mapGet]
    by_cases h : k = k'
    · subst h; simp
    · rw [if_neg h, if_neg (show ¬ k' = k from fun hh => h hh.symm)]
  | cons p rest ih =>
    obtain ⟨k₀, v₀⟩ := p
    by_cases h0 : k₀ = k
    · subst h0
      simp only [mapSet, if_pos rfl, mapGet]
      by_cases h : k₀ = k'
      · subst h; simp
      · rw [if_neg h, if_neg (show ¬ k' = k₀ from fun hh => h hh.symm), if_neg h]
    · simp only [mapSet, if_neg h0, mapGet, ih]
      by_cases h : k₀ = k'
      · subst h
        rw [if_pos rfl, if_neg (show ¬ k₀ = k from h0), if_pos rfl]
      · rw [if_neg h, if_neg h]

theorem mem_mapSet {m : JsMap α} {k : String} {v : α} {p : String × α}
    (h : p ∈ mapSet m k v) : p = (k, v) ∨ p ∈ m := by
  induction m with
  | nil => simpa [mapSet] using h
  | cons q rest ih =>
    obtain ⟨k₀, v₀⟩ := q
    by_cases h0 : k₀ = k
    · subst h0
      rcases (by simpa [mapSet] using h : p = (k₀, v) ∨ p ∈ rest) with h1 | h1
      · exact Or.inl h1
      · exact Or.inr (List.mem_cons_of_mem _ h1)
    · rcases (by simpa [mapSet, h0] using h : p = (k₀, v₀) ∨ p ∈ mapSet rest k v) with h1 | h1
      · exact Or.inr (by simp [h1])
      · rcases ih h1 with h2 | h2
        · exact Or.inl h2
        · exact Or.inr (List.mem_cons_of_mem _ h2)

theorem keys_mapSet (m : JsMap α) (k : String) (v : α) (k' : String) :
    k' ∈ (mapSet m k v).map Prod.fst ↔ k' = k ∨ k' ∈ m.map Prod.fst := by
  induction m with
  | nil => simp [mapSet]
  | cons p rest ih =>
    obtain ⟨k₀, v₀⟩ := p
    by_cases h0 : k₀ = k
    · subst h0; simp [mapSet]
    · simp [mapSet, h0, ih]; tauto

theorem nodupKeys_mapSet {m : JsMap α} (h : (m.map Prod.fst).Nodup)
    (k : String) (v : α) : ((mapSet m k v).map Prod.fst).Nodup := by
  induction m with
  | nil => simp [mapSet]
  | cons p rest ih =>
    obtain ⟨k₀, v₀⟩ := p
    simp only [List.map_cons, List.nodup_cons] at h
    by_cases h0 : k₀ = k
    · subst h0
      have hset : mapSet ((k₀, v₀) :: rest) k₀ v = (k₀, v) :: rest := by simp [mapSet]
      rw [hset, List.map_cons, List.nodup_cons]
      exact ⟨h.1, h.2⟩
    · simp only [mapSet, h0, if_false, List.map_cons, List.nodup_cons]
      refine ⟨fun hmem => ?_, ih h.2⟩
      rcases (keys_mapSet rest k v k₀).mp hmem with h1 | h1
      · exact h0 h1
      · exact h.1 h1

theorem mapGet_isSome_of_mem {m : JsMap α} {k : String} {v : α}
    (h : (k, v) ∈ m) : (mapGet m k).isSome := by
  induction m with
  | nil => simp at h
  | cons p rest ih =>
    obtain ⟨k₀, v₀⟩ := p
    by_cases h0 : k₀ = k
    · simp [mapGet, h0]
    · rcases List.mem_cons.mp h with h1 | h1
      · exact absurd (congrArg Prod.fst h1).symm h0
      · simpa [mapGet, h0] using ih h1

theorem mem_of_mapGet_eq_some {m : JsMap α} {k : String} {v : α}
    (h : mapGet m k = some v) : (k, v) ∈ m := by
  induction m with
  | nil => simp [mapGet] at h
  | cons p rest ih =>
    obtain ⟨k₀, v₀⟩ := p
    by_cases h0 : k₀ = k
    · subst h0
      simp [mapGet] at h
      simp [h]
    · simp [mapGet, h0] at h
      exact List.mem_cons_of_mem _ (ih h)

theorem mapGet_insertExistingStep (keyOf : α → Option String) (m : JsMap α) (i : α)
    (k : String) :
    mapGet (insertExistingStep keyOf m i) k =
      if keyOf i = some k then some i else mapGet m k := by
  unfold insertExistingStep
  cases hk : keyOf i with
  | none => simp
  | some k' =>
    rw [mapGet_mapSet]
    by_cases h : k' = k
    · subst h; simp
    · rw [if_neg (fun hh => h hh.symm), if_neg (by simpa using h)]

theorem mapGet_insertNewStep (keyOf : α → Option String) (tsOf : α → Option Nat)
    (m : JsMap α) (i : α) (k : String) :
    mapGet (insertNewStep keyOf tsOf m i) k =
      if keyOf i = some k then
        match mapGet m k with
        | none => some i
        | some e => if tsVal (tsOf e) ≤ tsVal (tsOf i) then some i else some e
      else mapGet m k := by
  cases hk : keyOf i with
  | none => simp [insertNewStep, hk]
  | some k' =>
    by_cases h : k' = k
    · subst h
      simp only [insertNewStep, hk, if_pos rfl]
      cases hg : mapGet m k' with
      | none => simp [mapGet_mapSet, hg]
      | some e =>
        by_cases hts : tsVal (tsOf e) ≤ tsVal (tsOf i)
        · simp [hts, mapGet_mapSet, hg]
        · simp [hts, hg]
    · have hne : (some k' = some k) = False := by simp [h]
      simp only [insertNewStep, hk, hne, if_false]
      cases hg : mapGet m k' with
      | none => rw [mapGet_mapSet, if_neg (fun hh => h hh.symm)]
      | some e =>
        by_cases hts : tsVal (tsOf e) ≤ tsVal (tsOf i)
        · simp [hts, mapGet_mapSet, show ¬ k = k' from fun hh => h hh.symm]
        · simp [hts]

theorem mapGet_foldl_existing (keyOf : α → Option String) (l : List α) :
    ∀ (m : JsMap α) (k : String),
      mapGet (l.foldl (insertExistingStep keyOf) m) k = lastWith keyOf k l (mapGet m k) := by
  induction l with
  | nil => intro m k; rfl
  | cons i l ih =>
    intro m k
    simp only [List.foldl_cons, lastWith] at *
    rw [ih, mapGet_insertExistingStep]

theorem mapGet_foldl_new (keyOf : α → Option String) (tsOf : α → Option Nat)
    (l : List α) : ∀ (m : JsMap α) (k : String),
      mapGet (l.foldl (insertNewStep keyOf tsOf) m) k =
        lwwFold keyOf tsOf k l (mapGet m k) := by
  induction l with
  | nil => intro m k; rfl
  | cons i l ih =>
    intro m k
    simp only [List.foldl_cons, lwwFold] at *
    rw [ih, mapGet_insertNewStep]
    by_cases h : keyOf i = some k
    · simp only [h, if_pos rfl]
      cases mapGet m k with
      | none => rfl
      | some e => by_cases hts : tsVal (tsOf e) ≤ tsVal (tsOf i) <;> simp [hts]
    · simp [h]

/-- Lookup in the merged map: LWW-fold the new array over the last
existing occurrence. -/
theorem mapGet_mergeCore (keyOf : α → Option String) (tsOf : α → Option Nat)
    (A B : List α) (k : String) :
    mapGet (mergeCore keyOf tsOf A B) k =
      lwwFold keyOf tsOf k B (lastWith keyOf k A none) := by
  unfold mergeCore
  rw [mapGet_foldl_new, mapGet_foldl_existing]
  rfl

theorem mem_insertExistingStep {keyOf : α → Option String} {m : JsMap α} {i : α}
    {p : String × α} (h : p ∈ insertExistingStep keyOf m i) :
    (keyOf i = some p.1 ∧ p.2 = i) ∨ p ∈ m := by
  unfold insertExistingStep at h
  cases hk : keyOf i with
  | none => rw [hk] at h; exact Or.inr h
  | some k =>
    rw [hk] at h
    rcases mem_mapSet h with h1 | h1
    · exact Or.inl (by simp [h1, hk])
    · exact Or.inr h1

theorem insertNewStep_eq_or (keyOf : α → Option String) (tsOf : α → Option Nat)
    (m : JsMap α) (i : α) :
    insertNewStep keyOf tsOf m i = m ∨
      ∃ k, keyOf i = some k ∧ insertNewStep keyOf tsOf m i = mapSet m k i := by
  cases hk : keyOf i with
  | none => exact Or.inl (by simp [insertNewStep, hk])
  | some k =>
    simp only [insertNewStep, hk]
    cases hg : mapGet m k with
    | none => exact Or.inr ⟨k, rfl, rfl⟩
    | some e =>
      by_cases hts : tsVal (tsOf e) ≤ tsVal (tsOf i)
      · exact Or.inr ⟨k, rfl, by simp [hts]⟩
      · exact Or.inl (by simp [hts])

theorem mem_insertNewStep {keyOf : α → Option String} {tsOf : α → Option Nat}
    {m : JsMap α} {i : α} {p : String × α} (h : p ∈ insertNewStep keyOf tsOf m i) :
    (keyOf i = some p.1 ∧ p.2 = i) ∨ p ∈ m := by
  rcases insertNewStep_eq_or keyOf tsOf m i with heq | ⟨k, hk, heq⟩
  · rw [heq] at h; exact Or.inr h
  · rw [heq] at h
    rcases mem_mapSet h with h1 | h1
    · exact Or.inl (by simp [h1, hk])
    · exact Or.inr h1

theorem foldl_existing_invariant {keyOf : α → Option String} {l : List α} :
    ∀ {m : JsMap α}, (∀ p ∈ m, keyOf p.2 = some p.1) →
      ∀ p ∈ l.foldl (insertExistingStep keyOf) m, keyOf p.2 = some p.1 := by
  induction l with
  | nil => intro m hm p hp; exact hm p hp
  | cons i l ih =>
    intro m hm p hp
    refine ih (fun q hq => ?_) p hp
    rcases mem_insertExistingStep hq with h1 | h1
    · rw [h1.2, h1.1]
    · exact hm q h1

theorem foldl_new_invariant {keyOf : α → Option String} {tsOf : α → Option Nat}
    {l : List α} : ∀ {m : JsMap α}, (∀ p ∈ m, keyOf p.2 = some p.1) →
      ∀ p ∈ l.foldl (insertNewStep keyOf tsOf) m, keyOf p.2 = some p.1 := by
  induction l with
  | nil => intro m hm p hp; exact hm p hp
  | cons i l ih =>
    intro m hm p hp
    refine ih (fun q hq => ?_) p hp
    rcases mem_insertNewStep hq with h1 | h1
    · rw [h1.2, h1.1]
    · exact hm q h1

/-- Every pair stored in the merged map carries its item's key. -/
theorem mergeCore_invariant (keyOf : α → Option String) (tsOf : α → Option Nat)
    (A B : List α) : ∀ p ∈ mergeCore keyOf tsOf A B, keyOf p.2 = some p.1 := by
  unfold mergeCore
  exact foldl_new_invariant (foldl_existing_invariant (by simp))

theorem nodupKeys_insertExistingStep {keyOf : α → Option String} {m : JsMap α}
    (h : (m.map Prod.fst).Nodup) (i : α) :
    ((insertExistingStep keyOf m i).map Prod.fst).Nodup := by
  unfold insertExistingStep
  cases keyOf i with
  | none => exact h
  | some k => exact nodupKeys_mapSet h k i

theorem nodupKeys_insertNewStep {keyOf : α → Option String} {tsOf : α → Option Nat}
    {m : JsMap α} (h : (m.map Prod.fst).Nodup) (i : α) :
    ((insertNewStep keyOf tsOf m i).map Prod.fst).Nodup := by
  rcases insertNewStep_eq_or keyOf tsOf m i with heq | ⟨k, _, heq⟩
  · rw [heq]; exact h
  · rw [heq]; exact nodupKeys_mapSet h k i

theorem foldl_existing_nodupKeys {keyOf : α → Option String} {l : List α} :
    ∀ {m : JsMap α}, (m.map Prod.fst).Nodup →
      ((l.foldl (insertExistingStep keyOf) m).map Prod.fst).Nodup := by
  induction l with
  | nil => intro m hm; exact hm
  | cons i l ih => intro m hm; exact ih (nodupKeys_insertExistingStep hm i)

theorem foldl_new_nodupKeys {keyOf : α → Option String} {tsOf : α → Option Nat}
    {l : List α} : ∀ {m : JsMap α}, (m.map Prod.fst).Nodup →
      ((l.foldl (insertNewStep keyOf tsOf) m).map Prod.fst).Nodup := by
  induction l with
  | nil => intro m hm; exact hm
  | cons i l ih => intro m hm; exact ih (nodupKeys_insertNewStep hm i)

/-- The merged map has duplicate-free keys. -/
theorem mergeCore_nodupKeys (keyOf : α → Option String) (tsOf : α → Option Nat)
    (A B : List α) : ((mergeCore keyOf tsOf A B).map Prod.fst).Nodup := by
  unfold mergeCore
  exact foldl_new_nodupKeys (foldl_existing_nodupKeys (by simp))

theorem foldl_existing_mem {keyOf : α → Option String} {l : List α} :
    ∀ {m : JsMap α} {p : String × α}, p ∈ l.foldl (insertExistingStep keyOf) m →
      p.2 ∈ l ∨ p ∈ m := by
  induction l with
  | nil => intro m p hp; exact Or.inr hp
  | cons i l ih =>
    intro m p hp
    rcases ih hp with h1 | h1
    · exact Or.inl (List.mem_cons_of_mem _ h1)
    · rcases mem_insertExistingStep h1 with h2 | h2
      · exact Or.inl (by simp [h2.2])
      · exact Or.inr h2

theorem foldl_new_mem {keyOf : α → Option String} {tsOf : α → Option Nat}
    {l : List α} : ∀ {m : JsMap α} {p : String × α},
      p ∈ l.foldl (insertNewStep keyOf tsOf) m → p.2 ∈ l ∨ p ∈ m := by
  induction l with
  | nil => intro m p hp; exact Or.inr hp
  | cons i l ih =>
    intro m p hp
    rcases ih hp with h1 | h1
    · exact Or.inl (List.mem_cons_of_mem _ h1)
    · rcases mem_insertNewStep h1 with h2 | h2
      · exact Or.inl (by simp [h2.2])
      · exact Or.inr h2

/-- Every merged item is one of the input items, unmodified. -/
theorem mergeCore_mem {keyOf : α → Option String} {tsOf : α → Option Nat}
    {A B : List α} {p : String × α} (h : p ∈ mergeCore keyOf tsOf A B) :
    p.2 ∈ A ∨ p.2 ∈ B := by
  unfold mergeCore at h
  rcases foldl_new_mem h with h1 | h1
  · exact Or.inr h1
  · rcases foldl_existing_mem h1 with h2 | h2
    · exact Or.inl h2
    · simp at h2

/-- `find?` over the value list of a key-faithful map agrees with map
lookup. -/
theorem find?_values {keyOf : α → Option String} {m : JsMap α}
    (h : ∀ p ∈ m, keyOf p.2 = some p.1) (k : String) :
    (m.map Prod.snd).find? (fun i => decide (keyOf i = some k)) = mapGet m k := by
  induction m with
  | nil => rfl
  | cons p rest ih =>
    obtain ⟨k₀, v₀⟩ := p
    have hk₀ : keyOf v₀ = some k₀ := h (k₀, v₀) (by simp)
    simp only [List.map_cons, List.find?_cons, mapGet]
    by_cases hk : k₀ = k
    · subst hk; simp [hk₀]
    · have : (decide (keyOf v₀ = some k)) = false := by
        simp [hk₀]; exact hk
      rw [this, if_neg hk]
      exact ih (fun q hq => h q (List.mem_cons_of_mem _ hq))

/-- keyedLookup into a merge output is lookup in the merged map. -/
theorem keyedLookup_mergeCore (keyOf : α → Option String) (tsOf : α → Option Nat)
    (A B : List α) (k : String) :
    keyedLookup keyOf ((mergeCore keyOf tsOf A B).map Prod.snd) k =
      lwwFold keyOf tsOf k B (lastWith keyOf k A none) := by
  unfold keyedLookup
  rw [find?_values (mergeCore_invariant keyOf tsOf A B) k, mapGet_mergeCore]

theorem lastWith_of_no_occurrence {keyOf : α → Option String} {k : String} {l : List α}
    (h : ∀ i ∈ l, keyOf i ≠ some k) (init : Option α) :
    lastWith keyOf k l init = init := by
  induction l generalizing init with
  | nil => rfl
  | cons i l ih =>
    have hi : keyOf i ≠ some k := h i (by simp)
    simp only [lastWith, List.foldl_cons, if_neg hi]
    exact ih (fun j hj => h j (List.mem_cons_of_mem _ hj)) init

theorem lwwFold_of_no_occurrence {keyOf : α → Option String} {tsOf : α → Option Nat}
    {k : String} {l : List α} (h : ∀ i ∈ l, keyOf i ≠ some k) (init : Option α) :
    lwwFold keyOf tsOf k l init = init := by
  induction l generalizing init with
  | nil => rfl
  | cons i l ih =>
    have hi : keyOf i ≠ some k := h i (by simp)
    simp only [lwwFold, List.foldl_cons, if_neg hi]
    exact ih (fun j hj => h j (List.mem_cons_of_mem _ hj)) init

theorem lwwFold_cons (keyOf : α → Option String) (tsOf : α → Option Nat)
    (k : String) (i : α) (l : List α) (init : Option α) :
    lwwFold keyOf tsOf k (i :: l) init =
      lwwFold keyOf tsOf k l
        (if keyOf i = some k then
          match init with
          | none => some i
          | some e => if tsVal (tsOf e) ≤ tsVal (tsOf i) then some i else init
        else init) := rfl

theorem lwwFold_some_exists {keyOf : α → Option String} {tsOf : α → Option Nat}
    {k : String} (l : List α) (x : α) :
    ∃ y, lwwFold keyOf tsOf k l (some x) = some y ∧
      tsVal (tsOf x) ≤ tsVal (tsOf y) := by
  induction l generalizing x with
  | nil => exact ⟨x, rfl, le_refl _⟩
  | cons i l ih =>
    rw [lwwFold_cons]
    by_cases hi : keyOf i = some k
    · simp only [hi, if_pos rfl]
      by_cases hts : tsVal (tsOf x) ≤ tsVal (tsOf i)
      · simp only [hts, if_true]
        obtain ⟨y, hy, hle⟩ := ih i
        exact ⟨y, hy, le_trans hts hle⟩
      · simp only [hts, if_false]
        exact ih x
    · simp only [if_neg hi]
      exact ih x

theorem lwwFold_isSome_iff {keyOf : α → Option String} {tsOf : α → Option Nat}
    {k : String} (l : List α) (init : Option α) :
    (lwwFold keyOf tsOf k l init).isSome ↔
      init.isSome ∨ ∃ i ∈ l, keyOf i = some k := by
  induction l generalizing init with
  | nil => simp [lwwFold]
  | cons i l ih =>
    rw [lwwFold_cons]
    by_cases hi : keyOf i = some k
    · simp only [hi, if_pos rfl]
      cases init with
      | none =>
        rw [ih]
        simp [hi]
      | some e =>
        by_cases hts : tsVal (tsOf e) ≤ tsVal (tsOf i) <;>
          · simp only [hts, if_true, if_false, ih]
            simp [hi]
    · rw [if_neg hi, ih]
      constructor
      · rintro (h | ⟨j, hj, hjk⟩)
        · exact Or.inl h
        · exact Or.inr ⟨j, List.mem_cons_of_mem _ hj, hjk⟩
      · rintro (h | ⟨j, hj, hjk⟩)
        · exact Or.inl h
        · rcases List.mem_cons.mp hj with rfl | hj'
          · exact absurd hjk hi
          · exact Or.inr ⟨j, hj', hjk⟩

theorem lastWith_isSome_iff {keyOf : α → Option String} {k : String} (l : List α)
    (init : Option α) :
    (lastWith keyOf k l init).isSome ↔ init.isSome ∨ ∃ i ∈ l, keyOf i = some k := by
  induction l generalizing init with
  | nil => simp [lastWith]
  | cons i l ih =>
    have hcons : lastWith keyOf k (i :: l) init =
        lastWith keyOf k l (if keyOf i = some k then some i else init) := rfl
    rw [hcons]
    by_cases hi : keyOf i = some k
    · rw [if_pos hi, ih]
      simp [hi]
    · rw [if_neg hi, ih]
      constructor
      · rintro (h | ⟨j, hj, hjk⟩)
        · exact Or.inl h
        · exact Or.inr ⟨j, List.mem_cons_of_mem _ hj, hjk⟩
      · rintro (h | ⟨j, hj, hjk⟩)
        · exact Or.inl h
        · rcases List.mem_cons.mp hj with rfl | hj'
          · exact absurd hjk hi
          · exact Or.inr ⟨j, hj', hjk⟩

/-- Under duplicate-free valid keys, the last occurrence is the first. -/
theorem lastWith_eq_keyedLookup {keyOf : α → Option String} {l : List α}
    (h : (l.filterMap keyOf).Nodup) (k : String) :
    lastWith keyOf k l none = keyedLookup keyOf l k := by
  induction l with
  | nil => rfl
  | cons i l ih =>
    have hcons : lastWith keyOf k (i :: l) none =
        lastWith keyOf k l (if keyOf i = some k then some i else none) := rfl
    by_cases hi : keyOf i = some k
    · have hnotin : ∀ j ∈ l, keyOf j ≠ some k := by
        intro j hj hjk
        have hkin : k ∈ l.filterMap keyOf := List.mem_filterMap.mpr ⟨j, hj, hjk⟩
        have : (l.filterMap keyOf).Nodup ∧ k ∉ l.filterMap keyOf := by
          have := (List.filterMap_cons_some hi) ▸ h
          exact ⟨(List.nodup_cons.mp this).2, (List.nodup_cons.mp this).1⟩
        exact this.2 hkin
      rw [hcons, if_pos hi, lastWith_of_no_occurrence hnotin]
      unfold keyedLookup
      rw [List.find?_cons_of_pos _ (by simp [hi])]
    · rw [hcons, if_neg hi]
      have htail : (l.filterMap keyOf).Nodup := by
        cases hko : keyOf i with
        | none => exact (List.filterMap_cons_none hko) ▸ h
        | some k' =>
          have := (List.filterMap_cons_some hko) ▸ h
          exact (List.nodup_cons.mp this).2
      rw [ih htail]
      unfold keyedLookup
      rw [List.find?_cons_of_neg _ (by simp [hi])]

/-- Under duplicate-free valid keys, the LWW fold is a two-candidate
comparison between the seed and the (unique) occurrence. -/
theorem lwwFold_eq_of_nodup {keyOf : α → Option String} {tsOf : α → Option Nat}
    {l : List α} (h : (l.filterMap keyOf).Nodup) (k : String) (init : Option α) :
    lwwFold keyOf tsOf k l init =
      match init, keyedLookup keyOf l k with
      | none, none => none
      | none, some b => some b
      | some a, none => some a
      | some a, some b => if tsVal (tsOf a) ≤ tsVal (tsOf b) then some b else some a := by
  induction l generalizing init with
  | nil =>
    cases init <;> rfl
  | cons i l ih =>
    rw [lwwFold_cons]
    by_cases hi : keyOf i = some k
    · have hnotin : ∀ j ∈ l, keyOf j ≠ some k := by
        intro j hj hjk
        have hkin : k ∈ l.filterMap keyOf := List.mem_filterMap.mpr ⟨j, hj, hjk⟩
        have hh := (List.filterMap_cons_some hi) ▸ h
        exact (List.nodup_cons.mp hh).1 hkin
      have hfind : keyedLookup keyOf (i :: l) k = some i := by
        unfold keyedLookup
        rw [List.find?_cons_of_pos _ (by simp [hi])]
      rw [if_pos hi, hfind]
      cases init with
      | none => rw [lwwFold_of_no_occurrence hnotin]
      | some a =>
        by_cases hts : tsVal (tsOf a) ≤ tsVal (tsOf i) <;>
          simp only [hts, if_true, if_false] <;>
          rw [lwwFold_of_no_occurrence hnotin]
    · have htail : (l.filterMap keyOf).Nodup := by
        cases hko : keyOf i with
        | none => exact (List.filterMap_cons_none hko) ▸ h
        | some k' =>
          have := (List.filterMap_cons_some hko) ▸ h
          exact (List.nodup_cons.mp this).2
      have hfind : keyedLookup keyOf (i :: l) k = keyedLookup keyOf l k := by
        unfold keyedLookup
        rw [List.find?_cons_of_neg _ (by simp [hi])]
      rw [if_neg hi, hfind, ih htail]

theorem exists_mem_values_iff_isSome {keyOf : α → Option String} {tsOf : α → Option Nat}
    {A B : List α} (k : String) :
    (∃ i ∈ (mergeCore keyOf tsOf A B).map Prod.snd, keyOf i = some k) ↔
      (mapGet (mergeCore keyOf tsOf A B) k).isSome := by
  constructor
  · rintro ⟨i, hi, hik⟩
    obtain ⟨p, hp, hpi⟩ := List.mem_map.mp hi
    have hinv := mergeCore_invariant keyOf tsOf A B p hp
    rw [hpi] at hinv
    rw [hik] at hinv
    have hp1 : p.1 = k := (Option.some.inj hinv).symm
    have hpm : (k, p.2) ∈ mergeCore keyOf tsOf A B := by
      have : p = (k, p.2) := by
        ext
        · rw [hp1]
        · rfl
      rw [← this]; exact hp
    exact mapGet_isSome_of_mem hpm
  · intro h
    cases hv : mapGet (mergeCore keyOf tsOf A B) k with
    | none => rw [hv] at h; simp at h
    | some v =>
      have hpm := mem_of_mapGet_eq_some hv
      have hinv := mergeCore_invariant keyOf tsOf A B (k, v) hpm
      exact ⟨v, List.mem_map.mpr ⟨(k, v), hpm, rfl⟩, hinv⟩

theorem filterMap_values_eq_keys {keyOf : α → Option String} {m : JsMap α}
    (h : ∀ p ∈ m, keyOf p.2 = some p.1) :
    (m.map Prod.snd).filterMap keyOf = m.map Prod.fst := by
  induction m with
  | nil => rfl
  | cons p rest ih =>
    obtain ⟨k₀, v₀⟩ := p
    have hk₀ : keyOf v₀ = some k₀ := h (k₀, v₀) (by simp)
    simp only [List.map_cons, List.filterMap_cons, hk₀]
    rw [ih (fun q hq => h q (List.mem_cons_of_mem _ hq))]

theorem lwwFold_append (keyOf : α → Option String) (tsOf : α → Option Nat)
    (k : String) (X Y : List α) (init : Option α) :
    lwwFold keyOf tsOf k (X ++ Y) init = lwwFold keyOf tsOf k Y (lwwFold keyOf tsOf k X init) := by
  unfold lwwFold
  rw [List.foldl_append]

/-- Idempotence at the map level: re-merging the merge result over the
same existing array does not change any lookup. -/
theorem mergeCore_idem (keyOf : α → Option String) (tsOf : α → Option Nat)
    (A B : List α) (k : String) :
    mapGet (mergeCore keyOf tsOf A ((mergeCore keyOf tsOf A B).map Prod.snd)) k =
      mapGet (mergeCore keyOf tsOf A B) k := by
  cases hv : mapGet (mergeCore keyOf tsOf A B) k with
  | none =>
    have hnov : ∀ i ∈ (mergeCore keyOf tsOf A B).map Prod.snd, keyOf i ≠ some k := by
      intro i hi hik
      have := (@exists_mem_values_iff_isSome _ keyOf tsOf A B k).mp
        ⟨i, hi, hik⟩
      rw [hv] at this; simp at this
    have hA : lastWith keyOf k A none = none := by
      cases ha : lastWith keyOf k A none with
      | none => rfl
      | some a =>
        obtain ⟨y, hy, _⟩ := @lwwFold_some_exists _ keyOf tsOf k B a
        rw [mapGet_mergeCore, ha, hy] at hv
        exact absurd hv (by simp)
    rw [mapGet_mergeCore, hA, lwwFold_of_no_occurrence hnov]
  | some v =>
    have hpm : (k, v) ∈ mergeCore keyOf tsOf A B := mem_of_mapGet_eq_some hv
    obtain ⟨l₁, l₂, hM⟩ := List.append_of_mem hpm
    have hnd : (l₁.map Prod.fst ++ k :: l₂.map Prod.fst).Nodup := by
      have hh := mergeCore_nodupKeys keyOf tsOf A B
      rw [hM] at hh
      simpa using hh
    have hk1 : k ∉ l₁.map Prod.fst := by
      intro hmem
      exact (List.nodup_append.mp hnd).2.2 hmem (by simp)
    have hk2 : k ∉ l₂.map Prod.fst :=
      (List.nodup_cons.mp (List.nodup_append.mp hnd).2.1).1
    have hkv : keyOf v = some k := mergeCore_invariant keyOf tsOf A B (k, v) hpm
    have hno₁ : ∀ i ∈ l₁.map Prod.snd, keyOf i ≠ some k := by
      intro i hi hik
      obtain ⟨p, hp, hpi⟩ := List.mem_map.mp hi
      have hinv : keyOf p.2 = some p.1 :=
        mergeCore_invariant keyOf tsOf A B p (hM ▸ List.mem_append_left _ hp)
      rw [hpi, hik] at hinv
      have hp1 : p.1 = k := (Option.some.inj hinv).symm
      have : p.1 ∈ l₁.map Prod.fst := List.mem_map.mpr ⟨p, hp, rfl⟩
      rw [hp1] at this
      exact hk1 this
    have hno₂ : ∀ i ∈ l₂.map Prod.snd, keyOf i ≠ some k := by
      intro i hi hik
      obtain ⟨p, hp, hpi⟩ := List.mem_map.mp hi
      have hinv : keyOf p.2 = some p.1 :=
        mergeCore_invariant keyOf tsOf A B p
          (hM ▸ List.mem_append_right _ (List.mem_cons_of_mem _ hp))
      rw [hpi, hik] at hinv
      have hp1 : p.1 = k := (Option.some.inj hinv).symm
      have : p.1 ∈ l₂.map Prod.fst := List.mem_map.mpr ⟨p, hp, rfl⟩
      rw [hp1] at this
      exact hk2 this
    have hvals : (mergeCore keyOf tsOf A B).map Prod.snd =
        l₁.map Prod.snd ++ v :: l₂.map Prod.snd := by
      rw [hM]; simp
    rw [mapGet_mergeCore, hvals]
    have hstep : ∀ init : Option α,
        lwwFold keyOf tsOf k (l₁.map Prod.snd ++ v :: l₂.map Prod.snd) init =
          lwwFold keyOf tsOf k (v :: l₂.map Prod.snd) init := by
      intro init
      rw [show l₁.map Prod.snd ++ v :: l₂.map Prod.snd =
          l₁.map Prod.snd ++ (v :: l₂.map Prod.snd) from rfl,
        lwwFold_append, lwwFold_of_no_occurrence hno₁]
    rw [hstep]
    cases ha : lastWith keyOf k A none with
    | none =>
      rw [lwwFold_cons]
      simp only [hkv, if_pos rfl]
      exact lwwFold_of_no_occurrence hno₂ (some v)
    | some a =>
      have hts : tsVal (tsOf a) ≤ tsVal (tsOf v) := by
        obtain ⟨y, hy, hle⟩ := @lwwFold_some_exists _ keyOf tsOf k B a
        rw [mapGet_mergeCore, ha, hy] at hv
        rwa [Option.some.inj hv] at hle
      rw [lwwFold_cons]
      simp only [hkv, if_pos rfl, hts, if_true]
      exact lwwFold_of_no_occurrence hno₂ (some v)

theorem filterMap_some_comp (f : α → β) (l : List α) :
    l.filterMap (fun a => some (f a)) = l.map f := by
  induction l with
  | nil => rfl
  | cons a l ih => simp [List.filterMap_cons, ih]

/-! ## Claim theorems -/

/-- C1: per-key last-write-wins merge rule.  For `mergeLWW` (and for
`mergeLWWGoalCompletions` with the composite key `goalId+date`), on
inputs whose valid keys are duplicate-free: a key present in both
inputs yields the incoming item exactly when its revision timestamp
(`_updatedAt || 0`, so missing/zero behaves as 0 and loses to any
positive stamp) is greater than or equal to the existing one, and the
existing item otherwise; a key present in only one input yields that
input's item. -/
theorem c1_merge_lww_per_key :
    (∀ {α : Type} (idOf : α → String) (tsOf : α → Option Nat) (A B : List α),
      (A.filterMap (validKey idOf)).Nodup →
      (B.filterMap (validKey idOf)).Nodup →
      ∀ k : String,
        keyedLookup (validKey idOf) (mergeLWW idOf tsOf A B) k =
          match keyedLookup (validKey idOf) A k, keyedLookup (validKey idOf) B k with
          | none, none => none
          | none, some b => some b
          | some a, none => some a
          | some a, some b =>
            if tsVal (tsOf a) ≤ tsVal (tsOf b) then some b else some a) ∧
    (∀ (A B : List GoalCompletion),
      (A.map completionKey).Nodup →
      (B.map completionKey).Nodup →
      ∀ k : String,
        keyedLookup (fun c => some (completionKey c)) (mergeLWWGoalCompletions A B) k =
          match keyedLookup (fun c => some (completionKey c)) A k,
              keyedLookup (fun c => some (completionKey c)) B k with
          | none, none => none
          | none, some b => some b
          | some a, none => some a
          | some a, some b =>
            if tsVal a.updatedAt ≤ tsVal b.updatedAt then some b else some a) := by
  constructor
  · intro α idOf tsOf A B hA hB k
    unfold mergeLWW
    rw [keyedLookup_mergeCore, lastWith_eq_keyedLookup hA, lwwFold_eq_of_nodup hB]
    cases keyedLookup (validKey idOf) A k <;> cases keyedLookup (validKey idOf) B k <;> rfl
  · intro A B hA hB k
    unfold mergeLWWGoalCompletions
    rw [keyedLookup_mergeCore,
      lastWith_eq_keyedLookup (by rw [filterMap_some_comp]; exact hA),
      lwwFold_eq_of_nodup (by rw [filterMap_some_comp]; exact hB)]
    cases keyedLookup (fun c => some (completionKey c)) A k <;>
      cases keyedLookup (fun c => some (completionKey c)) B k <;> rfl

/-- C1 witness: the spec scenario — existing completion
`(g1, 2024-01-01, completed, rev 5)` against incoming
`(g1, 2024-01-01, not completed, rev 3)` keeps the existing item. -/
theorem c1_merge_lww_per_key_witness :
    ([gcExisting].map completionKey).Nodup ∧
    ([gcIncoming].map completionKey).Nodup ∧
    keyedLookup (fun c => some (completionKey c))
        (mergeLWWGoalCompletions [gcExisting] [gcIncoming]) "g1::2024-01-01" =
      some gcExisting := by
  refine ⟨by decide, by decide, ?_⟩
  have h := c1_merge_lww_per_key.2 [gcExisting] [gcIncoming]
    (by decide) (by decide) "g1::2024-01-01"
  rw [h]
  decide

/-- C7: merge idempotence, `merge(A, merge(A, B)) == merge(A, B)` as
keyed sets — every key looks up to the same item on both sides, for
`mergeLWW` over any item type and for `mergeLWWGoalCompletions`. -/
theorem c7_merge_idempotent :
    (∀ {α : Type} (idOf : α → String) (tsOf : α → Option Nat) (A B : List α)
      (k : String),
      keyedLookup (validKey idOf) (mergeLWW idOf tsOf A (mergeLWW idOf tsOf A B)) k =
        keyedLookup (validKey idOf) (mergeLWW idOf tsOf A B) k) ∧
    (∀ (A B : List GoalCompletion) (k : String),
      keyedLookup (fun c => some (completionKey c))
          (mergeLWWGoalCompletions A (mergeLWWGoalCompletions A B)) k =
        keyedLookup (fun c => some (completionKey c))
          (mergeLWWGoalCompletions A B) k) := by
  constructor
  · intro α idOf tsOf A B k
    unfold mergeLWW keyedLookup
    rw [find?_values (mergeCore_invariant _ _ _ _) k,
      find?_values (mergeCore_invariant _ _ _ _) k]
    exact mergeCore_idem _ _ A B k
  · intro A B k
    unfold mergeLWWGoalCompletions keyedLookup
    rw [find?_values (mergeCore_invariant _ _ _ _) k,
      find?_values (mergeCore_invariant _ _ _ _) k]
    exact mergeCore_idem _ _ A B k

/-- C10: merge output invariant — the output's key set is the union of
the inputs' valid-item key sets (absence in one input never deletes the
other input's item), each key appears exactly once (duplicate input
keys collapse), and every output item is one of the input items,
unmodified.  Stated for `mergeLWW` and for `mergeLWWGoalCompletions`. -/
theorem c10_merge_key_union :
    (∀ {α : Type} (idOf : α → String) (tsOf : α → Option Nat) (A B : List α),
      (∀ k : String,
        ((∃ i ∈ mergeLWW idOf tsOf A B, validKey idOf i = some k) ↔
          (∃ i ∈ A, validKey idOf i = some k) ∨ (∃ i ∈ B, validKey idOf i = some k))) ∧
      ((mergeLWW idOf tsOf A B).filterMap (validKey idOf)).Nodup ∧
      (∀ i ∈ mergeLWW idOf tsOf A B, i ∈ A ∨ i ∈ B)) ∧
    (∀ (A B : List GoalCompletion),
      (∀ k : String,
        ((∃ i ∈ mergeLWWGoalCompletions A B, completionKey i = k) ↔
          (∃ i ∈ A, completionKey i = k) ∨ (∃ i ∈ B, completionKey i = k))) ∧
      ((mergeLWWGoalCompletions A B).map completionKey).Nodup ∧
      (∀ i ∈ mergeLWWGoalCompletions A B, i ∈ A ∨ i ∈ B)) := by
  constructor
  · intro α idOf tsOf A B
    refine ⟨fun k => ?_, ?_, fun i hi => ?_⟩
    · rw [show mergeLWW idOf tsOf A B =
          (mergeCore (validKey idOf) tsOf A B).map Prod.snd from rfl,
        exists_mem_values_iff_isSome, mapGet_mergeCore, lwwFold_isSome_iff,
        lastWith_isSome_iff]
      simp
    · rw [show mergeLWW idOf tsOf A B =
          (mergeCore (validKey idOf) tsOf A B).map Prod.snd from rfl,
        filterMap_values_eq_keys (mergeCore_invariant _ _ _ _)]
      exact mergeCore_nodupKeys _ _ A B
    · obtain ⟨p, hp, hpi⟩ := List.mem_map.mp hi
      rw [← hpi]
      exact mergeCore_mem hp
  · intro A B
    refine ⟨fun k => ?_, ?_, fun i hi => ?_⟩
    · have hiff := @exists_mem_values_iff_isSome GoalCompletion
        (fun c => some (completionKey c)) (fun c => c.updatedAt) A B k
      rw [show mergeLWWGoalCompletions A B =
          (mergeCore (fun c => some (completionKey c)) (fun c => c.updatedAt) A B).map
            Prod.snd from rfl]
      simp only [Option.some_inj] at hiff
      rw [hiff, mapGet_mergeCore, lwwFold_isSome_iff, lastWith_isSome_iff]
      simp
    · rw [show mergeLWWGoalCompletions A B =
          (mergeCore (fun c => some (completionKey c)) (fun c => c.updatedAt) A B).map
            Prod.snd from rfl,
        ← filterMap_some_comp completionKey,
        filterMap_values_eq_keys (mergeCore_invariant _ _ _ _)]
      exact mergeCore_nodupKeys _ _ A B
    · obtain ⟨p, hp, hpi⟩ := List.mem_map.mp hi
      rw [← hpi]
      exact mergeCore_mem hp

theorem str_pos_of_ne_empty {s : String} (h : s ≠ "") : 0 < s.length := by
  obtain ⟨data⟩ := s
  cases data with
  | nil => exact absurd rfl h
  | cons c cs => simp [String.length]

/-- With a nonempty device id (as `getDeviceId` always produces), the
JS truthiness-guarded equality is plain writer-id equality. -/
theorem isOwnUpdate_iff (snap : UserDataMem) (deviceId : String) (h : deviceId ≠ "") :
    isOwnUpdate snap deviceId = true ↔ snap.lastDeviceId = some deviceId := by
  cases hd : snap.lastDeviceId with
  | none => simp [isOwnUpdate, hd]
  | some d =>
    simp only [isOwnUpdate, hd, Bool.and_eq_true, decide_eq_true_eq, Option.some_inj]
    constructor
    · rintro ⟨_, rfl⟩; rfl
    · rintro rfl; exact ⟨str_pos_of_ne_empty h, rfl⟩

theorem applySnapshot_reject (snap : UserDataMem) (s : AppState)
    (hdev : s.deviceId ≠ "")
    (hgate : (0 < s.pendingSaveTimestamp ∧ snap.lastUpdated < s.pendingSaveTimestamp) ∨
      (snap.lastUpdated < s.lastLocalChangeTimestamp ∧
        snap.lastDeviceId ≠ some s.deviceId)) :
    applySnapshot snap s = s := by
  by_cases hHLC : 0 < s.pendingSaveTimestamp ∧ snap.lastUpdated < s.pendingSaveTimestamp
  · have hb : (decide (0 < s.pendingSaveTimestamp) &&
        decide (snap.lastUpdated < s.pendingSaveTimestamp)) = true := by
      simp [hHLC.1, hHLC.2]
    unfold applySnapshot
    simp only [hb, if_true]
  · have hb : (decide (0 < s.pendingSaveTimestamp) &&
        decide (snap.lastUpdated < s.pendingSaveTimestamp)) = false := by
      by_cases hp : 0 < s.pendingSaveTimestamp
      · have hq : ¬ snap.lastUpdated < s.pendingSaveTimestamp := fun hq => hHLC ⟨hp, hq⟩
        simp [hq]
      · simp [hp]
    rcases hgate with hg | hg
    · exact absurd hg hHLC
    · have hown : isOwnUpdate snap s.deviceId = false := by
        cases hoe : isOwnUpdate snap s.deviceId
        · rfl
        · exact absurd ((isOwnUpdate_iff snap s.deviceId hdev).mp hoe) hg.2
      have hb2 : (decide (snap.lastUpdated < s.lastLocalChangeTimestamp) &&
          !(isOwnUpdate snap s.deviceId)) = true := by
        simp [hg.1, hown]
      unfold applySnapshot
      simp only [hb, if_false, Bool.false_eq_true, hb2, if_true]

theorem applySnapshot_accept (snap : UserDataMem) (s : AppState)
    (hdev : s.deviceId ≠ "")
    (h1 : ¬ (0 < s.pendingSaveTimestamp ∧ snap.lastUpdated < s.pendingSaveTimestamp))
    (h2 : ¬ (snap.lastUpdated < s.lastLocalChangeTimestamp ∧
      snap.lastDeviceId ≠ some s.deviceId)) :
    applySnapshot snap s = mergedState snap s := by
  have hb : (decide (0 < s.pendingSaveTimestamp) &&
      decide (snap.lastUpdated < s.pendingSaveTimestamp)) = false := by
    by_cases hp : 0 < s.pendingSaveTimestamp
    · have hq : ¬ snap.lastUpdated < s.pendingSaveTimestamp := fun hq => h1 ⟨hp, hq⟩
      simp [hq]
    · simp [hp]
  have hb2 : (decide (snap.lastUpdated < s.lastLocalChangeTimestamp) &&
      !(isOwnUpdate snap s.deviceId)) = false := by
    by_cases hc : snap.lastUpdated < s.lastLocalChangeTimestamp
    · have heq : snap.lastDeviceId = some s.deviceId := by
        by_contra hne
        exact h2 ⟨hc, hne⟩
      have hown : isOwnUpdate snap s.deviceId = true :=
        (isOwnUpdate_iff snap s.deviceId hdev).mpr heq
      simp [hown]
    · simp [hc]
  unfold applySnapshot
  simp only [hb, hb2, Bool.false_eq_true, if_false]
  rfl

theorem mergeLWW_all_valid (idOf : α → String) (tsOf : α → Option Nat)
    (A B : List α) : ∀ i ∈ mergeLWW idOf tsOf A B, 0 < (idOf i).length := by
  intro i hi
  obtain ⟨p, hp, hpi⟩ := List.mem_map.mp hi
  have hinv := mergeCore_invariant (validKey idOf) tsOf A B p hp
  rw [hpi] at hinv
  unfold validKey at hinv
  by_cases h : (idOf i).length > 0
  · exact h
  · rw [if_neg h] at hinv
    exact absurd hinv (by simp)

/-- Merging under the constant-empty id accessor (what `mergeArraysById`
does to GoalCompletions, which have no `id` property) drops every item. -/
theorem mergeLWW_empty_id (tsOf : α → Option Nat) (A B : List α) :
    mergeLWW (fun _ => "") tsOf A B = [] := by
  have hstepE : ∀ (l : List α) (m : JsMap α),
      l.foldl (insertExistingStep (validKey (fun _ => ""))) m = m := by
    intro l
    induction l with
    | nil => intro m; rfl
    | cons i l ih => intro m; exact ih m
  have hstepN : ∀ (l : List α) (m : JsMap α),
      l.foldl (insertNewStep (validKey (fun _ => "")) tsOf) m = m := by
    intro l
    induction l with
    | nil => intro m; rfl
    | cons i l ih => intro m; exact ih m
  show ((mergeCore (validKey (fun _ => "")) tsOf A B).map Prod.snd) = []
  unfold mergeCore
  rw [hstepN, hstepE]
  rfl

theorem saveEffect_noop (now : Nat) (s : AppState)
    (hflag : s.isSyncingFromFirebase = false)
    (hhash : hashData (collectionsOf s) = s.dataHash) :
    saveEffect now s = (s, false) := by
  unfold saveEffect
  rw [hflag]
  simp only [Bool.false_eq_true, if_false]
  rw [if_pos hhash]

theorem runCommits_version_from (cs : List CommitInput) :
    ∀ (d : WireDoc) (v : Nat), d.version = some v →
      ∃ d', runCommits cs (some d) = some d' ∧ d'.version = some (v + cs.length) := by
  induction cs with
  | nil => intro d v hv; exact ⟨d, rfl, by simpa using hv⟩
  | cons c cs ih =>
    intro d v hv
    have hstep : (runCommit c (some d)).version = some (v + 1) := by
      show some (d.version.getD 0 + 1) = some (v + 1)
      rw [hv]
      rfl
    obtain ⟨d', hd', hv'⟩ := ih (runCommit c (some d)) (v + 1) hstep
    refine ⟨d', hd', ?_⟩
    rw [hv', List.length_cons]
    congr 1
    omega

/-- C2 counterexample: a connectivity failure (Firestore code
`unavailable`) also clears the pending-save timestamp to 0, while the
claim requires it to stay set (non-zero) on a connectivity failure. -/
theorem c2_counterexample :
    pendingState100.pendingSaveTimestamp ≠ 0 ∧
    (saveCompletion 10
        { success := false, error := some (classifyError .unavailable) }
        pendingState100).pendingSaveTimestamp = 0 :=
  ⟨by decide, rfl⟩

/-- C2 amended: when a commit fails (for ANY classified reason,
connectivity included), the local replica — the four collections and
the localStorage cache — is left intact, and the pending-write
timestamp is cleared to 0. -/
theorem c2_failure_semantics :
    ∀ (t : Nat) (e : FirebaseErrorKind) (s : AppState),
      (saveCompletion t { success := false, error := some (classifyError e) } s).tasks
          = s.tasks ∧
      (saveCompletion t { success := false, error := some (classifyError e) } s).reminders
          = s.reminders ∧
      (saveCompletion t { success := false, error := some (classifyError e) } s).goals
          = s.goals ∧
      (saveCompletion t { success := false, error := some (classifyError e) } s).goalCompletions
          = s.goalCompletions ∧
      (saveCompletion t { success := false, error := some (classifyError e) } s).cacheTasks
          = s.cacheTasks ∧
      (saveCompletion t { success := false, error := some (classifyError e) } s).cacheReminders
          = s.cacheReminders ∧
      (saveCompletion t { success := false, error := some (classifyError e) } s).cacheGoals
          = s.cacheGoals ∧
      (saveCompletion t { success := false, error := some (classifyError e) } s).cacheGoalCompletions
          = s.cacheGoalCompletions ∧
      (saveCompletion t { success := false, error := some (classifyError e) } s).pendingSaveTimestamp
          = 0 :=
  fun _ _ _ => ⟨rfl, rfl, rfl, rfl, rfl, rfl, rfl, rfl, rfl⟩

/-- C3: version bookkeeping — a commit against an absent document
writes version 1; a commit against an existing document with version v
writes v+1; N serialized commits from an initially-absent document
leave version = N. -/
theorem c3_version_bookkeeping :
    (∀ c : CommitInput, (runCommit c none).version = some 1) ∧
    (∀ (c : CommitInput) (d : WireDoc) (v : Nat), d.version = some v →
      (runCommit c (some d)).version = some (v + 1)) ∧
    (∀ cs : List CommitInput, cs ≠ [] →
      ∃ d, runCommits cs none = some d ∧ d.version = some cs.length) := by
  refine ⟨fun c => rfl, fun c d v hv => ?_, fun cs hcs => ?_⟩
  · show some (d.version.getD 0 + 1) = some (v + 1)
    rw [hv]
    rfl
  · cases cs with
    | nil => exact absurd rfl hcs
    | cons c cs =>
      have h1 : (runCommit c none).version = some 1 := rfl
      obtain ⟨d, hd, hv⟩ := runCommits_version_from cs (runCommit c none) 1 h1
      refine ⟨d, hd, ?_⟩
      rw [hv, List.length_cons]
      congr 1
      omega

/-- C3 witness: two serialized commits of the empty payload from an
absent document produce versions 1 then 2, and the run of length 2
ends at version 2. -/
theorem c3_version_bookkeeping_witness :
    (runCommit commit0 none).version = some 1 ∧
    (runCommit commit0 (some (runCommit commit0 none))).version = some 2 ∧
    ([commit0, commit0] : List CommitInput) ≠ [] ∧
    (∃ d, runCommits [commit0, commit0] none = some d ∧ d.version = some 2) := by
  refine ⟨c3_version_bookkeeping.1 commit0, ?_, List.cons_ne_nil _ _, ?_⟩
  · exact c3_version_bookkeeping.2.1 commit0 (runCommit commit0 none) 1 rfl
  · exact c3_version_bookkeeping.2.2 [commit0, commit0] (List.cons_ne_nil _ _)

/-- C4: the inbound gate — a snapshot is rejected as a no-op on the
collections, hash baseline and timestamps exactly when a strictly newer
local write is pending, or the snapshot is older than the last applied
timestamp and from another writer; otherwise it is merged per
collection with the LWW merge. -/
theorem c4_inbound_gate :
    ∀ (snap : UserDataMem) (s : AppState), s.deviceId ≠ "" →
      (((0 < s.pendingSaveTimestamp ∧ snap.lastUpdated < s.pendingSaveTimestamp) ∨
        (snap.lastUpdated < s.lastLocalChangeTimestamp ∧
          snap.lastDeviceId ≠ some s.deviceId)) →
        ((listenerEvent snap s).tasks = s.tasks ∧
         (listenerEvent snap s).reminders = s.reminders ∧
         (listenerEvent snap s).goals = s.goals ∧
         (listenerEvent snap s).goalCompletions = s.goalCompletions ∧
         (listenerEvent snap s).dataHash = s.dataHash ∧
         (listenerEvent snap s).lastSyncTime = s.lastSyncTime ∧
         (listenerEvent snap s).lastLocalChangeTimestamp = s.lastLocalChangeTimestamp ∧
         (listenerEvent snap s).pendingSaveTimestamp = s.pendingSaveTimestamp)) ∧
      (¬ ((0 < s.pendingSaveTimestamp ∧ snap.lastUpdated < s.pendingSaveTimestamp) ∨
        (snap.lastUpdated < s.lastLocalChangeTimestamp ∧
          snap.lastDeviceId ≠ some s.deviceId)) →
        ((listenerEvent snap s).tasks =
            mergeLWW Task.id Task.updatedAt s.tasks snap.tasks ∧
         (listenerEvent snap s).reminders =
            mergeLWW Reminder.id Reminder.updatedAt s.reminders snap.reminders ∧
         (listenerEvent snap s).goals =
            mergeLWW Goal.id Goal.updatedAt s.goals snap.goals ∧
         (listenerEvent snap s).goalCompletions =
            mergeLWWGoalCompletions s.goalCompletions snap.goalCompletions)) := by
  intro snap s hdev
  constructor
  · intro hgate
    have ha : applySnapshot snap s = s := applySnapshot_reject snap s hdev hgate
    simp only [listenerEvent]
    rw [ha]
    exact ⟨rfl, rfl, rfl, rfl, rfl, rfl, rfl, rfl⟩
  · intro hgate
    have h1 : ¬ (0 < s.pendingSaveTimestamp ∧ snap.lastUpdated < s.pendingSaveTimestamp) :=
      fun hh => hgate (Or.inl hh)
    have h2 : ¬ (snap.lastUpdated < s.lastLocalChangeTimestamp ∧
        snap.lastDeviceId ≠ some s.deviceId) := fun hh => hgate (Or.inr hh)
    have ha := applySnapshot_accept snap s hdev h1 h2
    simp only [listenerEvent]
    rw [ha]
    exact ⟨rfl, rfl, rfl, rfl⟩

/-- C4 witness: a stale other-writer snapshot is rejected no-op, at a
concrete input. -/
theorem c4_inbound_gate_witness :
    pendingState100.deviceId ≠ "" ∧
    ((0 < pendingState100.pendingSaveTimestamp ∧
      ownEchoSnapStale.lastUpdated < pendingState100.pendingSaveTimestamp) ∨
      (ownEchoSnapStale.lastUpdated < pendingState100.lastLocalChangeTimestamp ∧
        ownEchoSnapStale.lastDeviceId ≠ some pendingState100.deviceId)) ∧
    (listenerEvent ownEchoSnapStale pendingState100).pendingSaveTimestamp =
      pendingState100.pendingSaveTimestamp :=
  ⟨by decide, Or.inl (by decide),
    ((c4_inbound_gate ownEchoSnapStale pendingState100 (by decide)).1
      (Or.inl (by decide))).2.2.2.2.2.2.2⟩

/-- C5 counterexample: an inbound snapshot whose writer id equals this
device's id, but which is rejected by the pending-write gate (pending
100 > lastUpdated 50), leaves pendingSaveTimestamp at 100 instead of
clearing it to 0. -/
theorem c5_counterexample :
    ownEchoSnapStale.lastDeviceId = some pendingState100.deviceId ∧
    (listenerEvent ownEchoSnapStale pendingState100).pendingSaveTimestamp ≠ 0 :=
  ⟨rfl, by decide⟩

/-- C5 amended: an inbound own-writer snapshot clears the pending-write
timestamp to 0 whenever it is not rejected by the pending-write gate
(a strictly newer pending local write). -/
theorem c5_echo_clears_pending :
    ∀ (snap : UserDataMem) (s : AppState),
      s.deviceId ≠ "" →
      snap.lastDeviceId = some s.deviceId →
      ¬ (0 < s.pendingSaveTimestamp ∧ snap.lastUpdated < s.pendingSaveTimestamp) →
      (listenerEvent snap s).pendingSaveTimestamp = 0 := by
  intro snap s hdev hecho h1
  have h2 : ¬ (snap.lastUpdated < s.lastLocalChangeTimestamp ∧
      snap.lastDeviceId ≠ some s.deviceId) := fun hh => hh.2 hecho
  have ha := applySnapshot_accept snap s hdev h1 h2
  have hown : isOwnUpdate snap s.deviceId = true :=
    (isOwnUpdate_iff snap s.deviceId hdev).mpr hecho
  simp only [listenerEvent]
  rw [ha]
  show (mergedState snap s).pendingSaveTimestamp = 0
  simp [mergedState, hown]

/-- C5 witness: an own echo with lastUpdated 50 against pending 40
passes the gate and clears the pending timestamp. -/
theorem c5_echo_clears_pending_witness :
    pendingState40.deviceId ≠ "" ∧
    ownEchoSnapStale.lastDeviceId = some pendingState40.deviceId ∧
    ¬ (0 < pendingState40.pendingSaveTimestamp ∧
        ownEchoSnapStale.lastUpdated < pendingState40.pendingSaveTimestamp) ∧
    (listenerEvent ownEchoSnapStale pendingState40).pendingSaveTimestamp = 0 :=
  ⟨by decide, rfl, by decide,
    c5_echo_clears_pending ownEchoSnapStale pendingState40 (by decide) rfl (by decide)⟩

/-- C6: loop suppression — after an accepted inbound snapshot is
applied (which rebases the stored fingerprint to the post-merge hash),
a subsequent local-change event on the resulting state — even once the
suppression flag has expired — is a no-op: it schedules no write and
leaves the state (in particular the pending-write timestamp)
unchanged. -/
theorem c6_loop_suppression :
    ∀ (snap : UserDataMem) (s : AppState) (now : Nat),
      s.deviceId ≠ "" →
      ¬ (0 < s.pendingSaveTimestamp ∧ snap.lastUpdated < s.pendingSaveTimestamp) →
      ¬ (snap.lastUpdated < s.lastLocalChangeTimestamp ∧
          snap.lastDeviceId ≠ some s.deviceId) →
      saveEffect now { listenerEvent snap s with isSyncingFromFirebase := false } =
        ({ listenerEvent snap s with isSyncingFromFirebase := false }, false) := by
  intro snap s now hdev h1 h2
  have ha := applySnapshot_accept snap s hdev h1 h2
  simp only [listenerEvent]
  rw [ha]
  exact saveEffect_noop now _ rfl rfl

/-- C6 witness at a concrete accepted echo. -/
theorem c6_loop_suppression_witness :
    pendingState40.deviceId ≠ "" ∧
    ¬ (0 < pendingState40.pendingSaveTimestamp ∧
        ownEchoSnapStale.lastUpdated < pendingState40.pendingSaveTimestamp) ∧
    ¬ (ownEchoSnapStale.lastUpdated < pendingState40.lastLocalChangeTimestamp ∧
        ownEchoSnapStale.lastDeviceId ≠ some pendingState40.deviceId) ∧
    saveEffect 123 { listenerEvent ownEchoSnapStale pendingState40 with
        isSyncingFromFirebase := false } =
      ({ listenerEvent ownEchoSnapStale pendingState40 with
        isSyncingFromFirebase := false }, false) :=
  ⟨by decide, by decide, by decide,
    c6_loop_suppression ownEchoSnapStale pendingState40 123
      (by decide) (by decide) (by decide)⟩

/-- C9 counterexample: a first-write (document-creation) commit writes
an item whose key field is invalid (empty id) into the created
document — sanitization does not drop it. -/
theorem c9_counterexample :
    ∃ t ∈ (runCommit badCommit none).tasks, t.id.length = 0 := by decide

/-- C9 amended: written collections are always actual arrays (lists in
the embedding, with null entries removed by validateArrayField); on a
merge-branch commit every written task/reminder/goal carries a valid
(nonempty) id because the LWW merge drops invalid-keyed items, and
every goal completion is dropped (they never carry the id key this
merge checks); but a first-write commit performs no key-shape
filtering. -/
theorem c9_merge_branch_sanitization :
    ∀ (c : CommitInput) (d : WireDoc),
      (∀ t ∈ (runCommit c (some d)).tasks, 0 < t.id.length) ∧
      (∀ r ∈ (runCommit c (some d)).reminders, 0 < r.id.length) ∧
      (∀ g ∈ (runCommit c (some d)).goals, 0 < g.id.length) ∧
      (runCommit c (some d)).goalCompletions = [] := by
  intro c d
  exact ⟨mergeLWW_all_valid _ _ _ _, mergeLWW_all_valid _ _ _ _,
    mergeLWW_all_valid _ _ _ _, mergeLWW_empty_id _ _ _⟩

theorem collectionStr_eq_of_perm {l₁ l₂ : List String} (h : l₁.Perm l₂) :
    collectionStr l₁ = collectionStr l₂ := by
  unfold collectionStr
  rw [sortStrings_eq_of_perm h]

theorem normalizeTask_clearTs (t : Task) : normalizeTask (clearTaskTs t) = normalizeTask t := rfl

theorem normalizeReminder_clearTs (r : Reminder) :
    normalizeReminder (clearReminderTs r) = normalizeReminder r := rfl

theorem normalizeGoal_clearTs (g : Goal) : normalizeGoal (clearGoalTs g) = normalizeGoal g := rfl

theorem normalizeCompletion_clearTs (c : GoalCompletion) :
    normalizeCompletion (clearCompletionTs c) = normalizeCompletion c := rfl

/-- C8: fingerprint invariance — permuting the items of any of the four
collections and/or changing only their `_updatedAt` revision stamps
(i.e. equality of the four collections as multisets after erasing
`_updatedAt`) leaves `hashData` unchanged; with the reflexive instance,
identical observable content always hashes identically. -/
theorem c8_hash_invariance :
    ∀ d₁ d₂ : AppData,
      (d₁.tasks.map clearTaskTs).Perm (d₂.tasks.map clearTaskTs) →
      (d₁.reminders.map clearReminderTs).Perm (d₂.reminders.map clearReminderTs) →
      (d₁.goals.map clearGoalTs).Perm (d₂.goals.map clearGoalTs) →
      (d₁.goalCompletions.map clearCompletionTs).Perm
        (d₂.goalCompletions.map clearCompletionTs) →
      hashData d₁ = hashData d₂ := by
  intro d₁ d₂ ht hr hg hc
  have hmt : ∀ l : List Task, (l.map clearTaskTs).map normalizeTask = l.map normalizeTask := by
    intro l
    rw [List.map_map]
    exact List.map_congr_left fun t _ => normalizeTask_clearTs t
  have hmr : ∀ l : List Reminder,
      (l.map clearReminderTs).map normalizeReminder = l.map normalizeReminder := by
    intro l
    rw [List.map_map]
    exact List.map_congr_left fun r _ => normalizeReminder_clearTs r
  have hmg : ∀ l : List Goal,
      (l.map clearGoalTs).map normalizeGoal = l.map normalizeGoal := by
    intro l
    rw [List.map_map]
    exact List.map_congr_left fun g _ => normalizeGoal_clearTs g
  have hmc : ∀ l : List GoalCompletion,
      (l.map clearCompletionTs).map normalizeCompletion = l.map normalizeCompletion := by
    intro l
    rw [List.map_map]
    exact List.map_congr_left fun c _ => normalizeCompletion_clearTs c
  have pt : (d₁.tasks.map normalizeTask).Perm (d₂.tasks.map normalizeTask) := by
    have := ht.map normalizeTask
    rwa [hmt, hmt] at this
  have pr : (d₁.reminders.map normalizeReminder).Perm (d₂.reminders.map normalizeReminder) := by
    have := hr.map normalizeReminder
    rwa [hmr, hmr] at this
  have pg : (d₁.goals.map normalizeGoal).Perm (d₂.goals.map normalizeGoal) := by
    have := hg.map normalizeGoal
    rwa [hmg, hmg] at this
  have pc : (d₁.goalCompletions.map normalizeCompletion).Perm
      (d₂.goalCompletions.map normalizeCompletion) := by
    have := hc.map normalizeCompletion
    rwa [hmc, hmc] at this
  have lt : d₁.tasks.length = d₂.tasks.length := by
    have := ht.length_eq
    simpa using this
  have lr : d₁.reminders.length = d₂.reminders.length := by
    have := hr.length_eq
    simpa using this
  have lg : d₁.goals.length = d₂.goals.length := by
    have := hg.length_eq
    simpa using this
  have lc : d₁.goalCompletions.length = d₂.goalCompletions.length := by
    have := hc.length_eq
    simpa using this
  unfold hashData hashInput
  rw [collectionStr_eq_of_perm pt, collectionStr_eq_of_perm pr,
    collectionStr_eq_of_perm pg, collectionStr_eq_of_perm pc, lt, lr, lg, lc]

/-- C8 witness: swapping the two tasks and restamping all revision
fields leaves the fingerprint unchanged. -/
theorem c8_hash_invariance_witness :
    (c8Data1.tasks.map clearTaskTs).Perm (c8Data2.tasks.map clearTaskTs) ∧
    (c8Data1.reminders.map clearReminderTs).Perm (c8Data2.reminders.map clearReminderTs) ∧
    (c8Data1.goals.map clearGoalTs).Perm (c8Data2.goals.map clearGoalTs) ∧
    (c8Data1.goalCompletions.map clearCompletionTs).Perm
      (c8Data2.goalCompletions.map clearCompletionTs) ∧
    hashData c8Data1 = hashData c8Data2 :=
  ⟨by decide, by decide, by decide, by decide,
    c8_hash_invariance c8Data1 c8Data2 (by decide) (by decide) (by decide) (by decide)⟩

end TimelineSync
